import Mathlib

/-!
# Verification of the `jt` timesheet tool

Shallow embedding of the core logic of the `jt` command-line timesheet tool
(`src/main.rs`, `src/client.rs`, `src/config.rs`) together with theorems about
the attribute resolver, the daily allocation loop, the week planner, the
worklog uploader and the submission step.

Conventions of the embedding:
* Durations (`chrono::TimeDelta`) are modelled as whole minutes carried in `Int`
  (every duration in this program is built via `TimeDelta::minutes`; comparisons
  and sums are scale-invariant).  The overflow panics of `TimeDelta`
  construction for astronomically large magnitudes are not modelled.
* Calendar dates (`chrono::NaiveDate`) are modelled as `Int` day numbers
  (days since 1970-01-01), with explicit Gregorian/ISO-8601 conversion
  functions mirroring chrono's semantics.
* Interactive prompts and the random number generator are modelled as input
  streams supplied as parameters.
* The `while` loop of `select_days_tasks` is modelled with explicit fuel:
  a result of `none` means the loop has not terminated within `fuel` iterations,
  so non-termination is `∀ fuel, ... = none`.
* A Rust panic (`unwrap` of `None` / an interactive selection over an empty
  item list) is a distinct abnormal outcome, written `AllocFailure.panicked`;
  it is not a returned error value.
-/

namespace Jt

/-! ## JSON values and `serde_json::Value::pointer` -/

/-- JSON values as deserialized by serde (`serde_json::Value`).  Numeric
payloads are carried but never inspected by any embedded operation, so their
exact representation is irrelevant to every theorem below. -/
inductive Json where
  | null : Json
  | bool (b : Bool) : Json
  | num (q : Rat) : Json
  | str (s : String) : Json
  | arr (xs : List Json) : Json
  | obj (kvs : List (String × Json)) : Json

/-- `serde_json::Value::as_str`. -/
def Json.asStr : Json → Option String
  | Json.str s => some s
  | _ => none

/-- `serde_json::Map::get`: key lookup in a JSON object.  (Maps deserialized
from a Rust `HashMap` have unique keys, so first-match lookup is exact.) -/
def jsonLookup (kvs : List (String × Json)) (k : String) : Option Json :=
  (kvs.find? fun p => p.1 == k).map Prod.snd

/-- `str::split('/')` on a character list. -/
def splitSlash : List Char → List (List Char)
  | [] => [[]]
  | '/' :: rest => [] :: splitSlash rest
  | c :: rest =>
    match splitSlash rest with
    | [] => [[c]]
    | t :: ts => (c :: t) :: ts

/-- First pass of serde's pointer-token unescaping: `replace("~1", "/")`,
left to right, non-overlapping. -/
def replaceTilde1 : List Char → List Char
  | '~' :: '1' :: rest => '/' :: replaceTilde1 rest
  | c :: rest => c :: replaceTilde1 rest
  | [] => []

/-- Second pass of serde's pointer-token unescaping: `replace("~0", "~")`. -/
def replaceTilde0 : List Char → List Char
  | '~' :: '0' :: rest => '~' :: replaceTilde0 rest
  | c :: rest => c :: replaceTilde0 rest
  | [] => []

/-- One reference token of a JSON pointer: `x.replace("~1", "/").replace("~0", "~")`. -/
def pointerToken (t : List Char) : String :=
  String.mk (replaceTilde0 (replaceTilde1 t))

/-- Digit accumulation for `str::parse::<usize>` (reached only after the
leading `+` has been excluded). -/
def parseDigits : List Char → Nat → Option Nat
  | [], acc => some acc
  | c :: rest, acc =>
    if c.isDigit then parseDigits rest (acc * 10 + (c.toNat - 48)) else none

/-- serde_json's `parse_index`: rejects a leading `+`, rejects leading zeros
(except `"0"` itself), then parses a decimal index.  An index exceeding every
array length behaves identically to a failed parse in context (both yield
`None` from the array lookup). -/
def parseIndex : List Char → Option Nat
  | [] => none
  | c :: rest =>
    if c == '+' then none
    else if c == '0' && rest ≠ [] then none
    else parseDigits (c :: rest) 0

/-- The `try_fold` of `serde_json::Value::pointer` over the unescaped tokens. -/
def pointerGo : Json → List String → Option Json
  | v, [] => some v
  | Json.obj kvs, t :: ts =>
    match jsonLookup kvs t with
    | some v => pointerGo v ts
    | none => none
  | Json.arr xs, t :: ts =>
    match parseIndex t.toList with
    | some i =>
      match xs.get? i with
      | some v => pointerGo v ts
      | none => none
    | none => none
  | _, _ :: _ => none

/-- `serde_json::Value::pointer`: empty pointer returns the whole value, a
pointer not starting with `/` resolves to nothing, otherwise the
slash-separated tokens are unescaped and followed. -/
def pointer (v : Json) (p : String) : Option Json :=
  match p.toList with
  | [] => some v
  | '/' :: rest => pointerGo v ((splitSlash rest).map pointerToken)
  | _ => none

/-! ## Work attributes and the attribute resolver (src/main.rs `resolve_attributes`) -/

/-- `config::WorkAttribute`: the configured attribute template.  For a dynamic
attribute `value` holds the JSON-pointer path; for a static or resolved
attribute it holds the literal value. -/
structure WorkAttribute where
  key : String
  name : String
  work_attribute_id : Nat
  value : String
deriving DecidableEq

/-- The two failure cases of `resolve_attributes`.  In the source they are the
anyhow contexts "Unable to resolve JSON pointer" (`pathNotFound`) and
"JSON pointer does not point to string value" (`notAString`); the spec names
them `ResolutionError::PathNotFound` and `ResolutionError::NotAString`. -/
inductive ResolutionError where
  | pathNotFound
  | notAString
deriving DecidableEq

/-- The body of the per-template closure in `resolve_attributes`: follow the
pointer into the task's fields, then require a string value. -/
def extractString (pointable : Json) (path : String) : Except ResolutionError String :=
  match pointer pointable path with
  | none => Except.error ResolutionError.pathNotFound
  | some v =>
    match v.asStr with
    | none => Except.error ResolutionError.notAString
    | some s => Except.ok s

/-- `dynamic_attributes.iter().map(..).collect::<Result<Vec<_>>>()`: resolve
each dynamic template in order, stopping at the first failure; a successful
template is copied with only `value` replaced by the extracted string. -/
def resolveDynamic (pointable : Json) : List WorkAttribute → Except ResolutionError (List WorkAttribute)
  | [] => Except.ok []
  | attr :: rest =>
    match extractString pointable attr.value with
    | Except.error e => Except.error e
    | Except.ok s =>
      match resolveDynamic pointable rest with
      | Except.error e => Except.error e
      | Except.ok tail => Except.ok ({ attr with value := s } :: tail)

/-- src/main.rs `resolve_attributes` (lines 307-328): resolve the dynamic
templates against the issue's fields (serialized to a JSON object), then append
the static templates verbatim.  `fields` is `issue.fields`
(a `HashMap<String, Value>`, hence unique keys). -/
def resolve_attributes (fields : List (String × Json))
    (static_attributes dynamic_attributes : List WorkAttribute) :
    Except ResolutionError (List WorkAttribute) :=
  match resolveDynamic (Json.obj fields) dynamic_attributes with
  | Except.error e => Except.error e
  | Except.ok resolved => Except.ok (resolved ++ static_attributes)

/-! ## The daily allocation loop (src/main.rs `select_days_tasks`) -/

/-- External nondeterminism consumed by one day's allocation loop:
`pick k` models the random draw of `tasks.choose(&mut thread_rng())`
(random mode) or the index returned by the interactive `Select` menu
(prompt mode) at loop iteration `k`; `input k` models the interactive
"How many minutes did you spend on this task?" entry (a `u64`). -/
structure AllocChoices where
  pick : Nat → Nat
  input : Nat → Nat

/-- Failure outcomes of `select_days_tasks`.
`missingDefaultDuration` is the returned error of
`default_time_spent.ok_or(anyhow!(""))?` (random mode, no configured default;
the spec calls it `AllocationError::MissingDefaultDuration`).
`panicked` is abnormal termination: `tasks.choose(..).unwrap()` on an empty
slice panics, and in prompt mode an empty `Select` item list cannot yield a
valid index, so `tasks.get(select).unwrap()` panics.  `panicked` is not a
returned error value; the source has no `AllocationError::NoCandidates`. -/
inductive AllocFailure where
  | missingDefaultDuration
  | panicked
deriving DecidableEq

/-- Two's-complement reinterpretation `u64 as i64`
(src/main.rs `minutes as i64`, `input as i64`). -/
def i64ofU64 (n : Nat) : Int :=
  if n % 2 ^ 64 < 2 ^ 63 then ((n % 2 ^ 64 : Nat) : Int)
  else ((n % 2 ^ 64 : Nat) : Int) - 2 ^ 64

/-- `today.iter().map(|(_, duration)| duration).sum::<TimeDelta>()`, in minutes. -/
def sumDurations (today : List (α × Int)) : Int :=
  (today.map Prod.snd).sum

/-- The duration pushed at iteration `k` when one is obtainable: the configured
default if present, otherwise the interactive minute entry (`input as i64`). -/
def chosenDuration (default_time_spent : Option Int) (ch : AllocChoices) (k : Nat) : Int :=
  match default_time_spent with
  | some time => time
  | none => i64ofU64 (ch.input k)

/-- The selected task: a stream draw reduced to a valid index of the non-empty
candidate list (`tasks.choose(..)` in random mode, the `Select` menu result in
prompt mode — both always denote a valid index when the list is non-empty). -/
def chooseTask (t : α) (ts : List α) (n : Nat) : α :=
  (t :: ts).get ⟨n % (ts.length + 1), Nat.mod_lt _ (Nat.succ_pos _)⟩

/-- src/main.rs `select_days_tasks` (lines 219-265): the `while` loop that
accumulates `(task, duration)` pairs into `today` until the running sum of
durations reaches `target_per_day`.  Fuel-indexed: `none` means the loop has
not terminated within `fuel` iterations.  `k` counts iterations (the position
in the external choice streams); the accumulator `today` starts empty. -/
def select_days_tasks (tasks : List α) (target_per_day : Int)
    (default_time_spent : Option Int) (random : Bool) (ch : AllocChoices) :
    Nat → Nat → List (α × Int) → Option (Except AllocFailure (List (α × Int)))
  | 0, _, _ => none
  | fuel + 1, k, today =>
    if sumDurations today < target_per_day then
      if random then
        match default_time_spent with
        | none => some (Except.error AllocFailure.missingDefaultDuration)
        | some time_spent =>
          match tasks with
          | [] => some (Except.error AllocFailure.panicked)
          | t :: ts =>
            select_days_tasks tasks target_per_day default_time_spent random ch fuel (k + 1)
              (today ++ [(chooseTask t ts (ch.pick k), time_spent)])
      else
        match tasks with
        | [] => some (Except.error AllocFailure.panicked)
        | t :: ts =>
          select_days_tasks tasks target_per_day default_time_spent random ch fuel (k + 1)
            (today ++ [(chooseTask t ts (ch.pick k), chosenDuration default_time_spent ch k)])
    else some (Except.ok today)

/-- Non-termination of the allocation loop on the concrete configuration of
the C1 counterexample: candidate list `[()]`, daily target 480 minutes,
configured default duration 0 minutes, random mode.  In fuel semantics,
divergence is: no amount of fuel makes the loop finish. -/
def allocatorDivergesOnZeroDefault : Prop :=
  ∀ fuel, select_days_tasks [()] 480 (some 0) true ⟨fun _ => 0, fun _ => 0⟩ fuel 0 [] = none

/-! ## Calendar model (chrono `NaiveDate`, ISO-8601 weeks)

Dates are `Int` day numbers, days since 1970-01-01.  The conversion functions
follow the standard proleptic-Gregorian civil-date algorithms, which is what
chrono implements. -/

/-- Proleptic-Gregorian leap year. -/
def isLeap (y : Int) : Bool :=
  Int.emod y 4 == 0 && (!(Int.emod y 100 == 0) || Int.emod y 400 == 0)

/-- Day number (days since 1970-01-01) of the civil date `(y, m, d)`,
`1 ≤ m ≤ 12`.  Hinnant's `days_from_civil`. -/
def daysFromCivil (y m d : Int) : Int :=
  let yAdj := if m ≤ 2 then y - 1 else y
  let era := Int.fdiv yAdj 400
  let yoe := yAdj - era * 400
  let mp := Int.emod (m + 9) 12
  let doy := Int.ediv (153 * mp + 2) 5 + d - 1
  let doe := yoe * 365 + Int.ediv yoe 4 - Int.ediv yoe 100 + doy
  era * 146097 + doe - 719468

/-- Civil date `(year, month, day)` of a day number.  Hinnant's `civil_from_days`. -/
def civilFromDays (z : Int) : Int × Int × Int :=
  let zShift := z + 719468
  let era := Int.fdiv zShift 146097
  let doe := zShift - era * 146097
  let yoe := Int.ediv (doe - Int.ediv doe 1460 + Int.ediv doe 36524 - Int.ediv doe 146096) 365
  let y := yoe + era * 400
  let doy := doe - (365 * yoe + Int.ediv yoe 4 - Int.ediv yoe 100)
  let mp := Int.ediv (5 * doy + 2) 153
  let d := doy - Int.ediv (153 * mp + 2) 5 + 1
  let m := if mp < 10 then mp + 3 else mp - 9
  (if m ≤ 2 then y + 1 else y, m, d)

/-- chrono `Datelike::year`: the calendar year of a date. -/
def yearOf (z : Int) : Int := (civilFromDays z).1

/-- ISO weekday number, Monday = 1 .. Sunday = 7 (1970-01-01 was a Thursday). -/
def isoWeekday (z : Int) : Int := Int.emod (z + 3) 7 + 1

/-- Number of ISO-8601 weeks in ISO year `y`: 53 when Jan 1 falls on a
Thursday, or on a Wednesday of a leap year; otherwise 52. -/
def weeksInIsoYear (y : Int) : Int :=
  let jan1 := daysFromCivil y 1 1
  if isoWeekday jan1 = 4 ∨ (isLeap y = true ∧ isoWeekday jan1 = 3) then 53 else 52

/-- chrono `Datelike::iso_week`: the `(ISO year, ISO week number)` of a date. -/
def isoWeekOf (z : Int) : Int × Int :=
  let y := yearOf z
  let doy := z - daysFromCivil y 1 1 + 1
  let w := Int.ediv (doy - isoWeekday z + 10) 7
  if w < 1 then (y - 1, weeksInIsoYear (y - 1))
  else if w > weeksInIsoYear y then (y + 1, 1)
  else (y, w)

/-- chrono `NaiveDate::from_isoywd_opt(y, w, Weekday::Mon)`: the Monday of ISO
week `w` of ISO year `y`, or `none` when `w` is outside `1..=weeksInIsoYear y`. -/
def fromIsoywdMonday (y w : Int) : Option Int :=
  if 1 ≤ w ∧ w ≤ weeksInIsoYear y then
    let jan4 := daysFromCivil y 1 4
    some (jan4 - (isoWeekday jan4 - 1) + 7 * (w - 1))
  else none

/-- src/main.rs `fill` (lines 168-175): the computed `first_day`.
`next` adds `TimeDelta::weeks(1)` (7 days) before taking the ISO week, but the
year passed to `from_isoywd_opt` is `now.year()` — the *calendar* year of
`now`, not the ISO week-based year of the computed week.  A result of `none`
models the `.unwrap()` panic of `from_isoywd_opt`. -/
def codeFirstDay (now : Int) (next : Bool) : Option Int :=
  let week := if next then isoWeekOf (now + 7) else isoWeekOf now
  fromIsoywdMonday (yearOf now) week.2

/-- Modelled from the spec ("compute the ISO week (next week = now shifted
forward by exactly 7 days ...), then take that week's Monday as `first_day`"):
the Monday of the ISO-8601 week containing `now` (shifted by 7 days when
`next`).  ISO weeks are Monday-aligned, so this Monday is
`base - (isoWeekday base - 1)`. -/
def specFirstDay (now : Int) (next : Bool) : Int :=
  let base := if next then now + 7 else now
  base - (isoWeekday base - 1)

/-! ## The week-planning loop (src/main.rs `fill`, lines 186-201) -/

/-- The planning loop body over the remaining day offsets: for each offset `i`
(day `first_day + i`) run one allocation with a fresh empty accumulator and
stream `ch i`, annotate each produced pair with the day, and append in day
order.  The first failing day aborts the whole plan (`?`); `none` propagates
an undecided (out-of-fuel) allocation. -/
def planDays (tasks : List α) (target : Int) (dflt : Option Int) (random : Bool)
    (ch : Nat → AllocChoices) (fuel : Nat) (firstDay : Int) :
    List Nat → Option (Except AllocFailure (List (Int × α × Int)))
  | [] => some (Except.ok [])
  | i :: rest =>
    match select_days_tasks tasks target dflt random (ch i) fuel 0 [] with
    | none => none
    | some (Except.error e) => some (Except.error e)
    | some (Except.ok today) =>
      match planDays tasks target dflt random ch fuel firstDay rest with
      | none => none
      | some (Except.error e) => some (Except.error e)
      | some (Except.ok work) =>
        some (Except.ok ((today.map fun p => (firstDay + (i : Int), p.1, p.2)) ++ work))

/-- src/main.rs `fill` (lines 186-201): `for day in first_day.iter_days().take(5)`
— the five consecutive days `first_day, .., first_day + 4`. -/
def plan_week (tasks : List α) (target : Int) (dflt : Option Int) (random : Bool)
    (ch : Nat → AllocChoices) (fuel : Nat) (firstDay : Int) :
    Option (Except AllocFailure (List (Int × α × Int))) :=
  planDays tasks target dflt random ch fuel firstDay (List.range 5)

/-! ## The Tempo client (src/client.rs) -/

/-- client.rs `WorkAttribute` (the serialized form): the configured `key` is
not part of the serialized value — it becomes the map key instead. -/
structure ClientWorkAttribute where
  name : String
  work_attribute_id : Nat
  value : String
deriving DecidableEq

/-- The per-attribute conversion inside `create_worklog`. -/
def toClientAttribute (a : WorkAttribute) : ClientWorkAttribute :=
  { name := a.name, work_attribute_id := a.work_attribute_id, value := a.value }

/-- `std::collections::HashMap<String, V>::insert`: replace the value when the
key is present, otherwise add the entry.  The model is an association list
whose key set is kept duplicate-free; iteration order of a `HashMap` is
arbitrary and is deliberately not observable — `hashMapGet` is the only
observation. -/
def hashMapInsert (m : List (String × ClientWorkAttribute)) (k : String)
    (v : ClientWorkAttribute) : List (String × ClientWorkAttribute) :=
  if m.any fun p => p.1 == k then m.map fun p => if p.1 == k then (k, v) else p
  else m ++ [(k, v)]

/-- `HashMap::from_iter`: left-to-right insertion, so a later entry with a
duplicate key overwrites an earlier one. -/
def hashMapFromIter (l : List (String × ClientWorkAttribute)) :
    List (String × ClientWorkAttribute) :=
  l.foldl (fun m p => hashMapInsert m p.1 p.2) []

/-- `HashMap::get`. -/
def hashMapGet (m : List (String × ClientWorkAttribute)) (k : String) :
    Option ClientWorkAttribute :=
  (m.find? fun p => p.1 == k).map Prod.snd

/-- Two's-complement reinterpretation `i64 as u64`
(client.rs `time_spent.num_seconds() as u64`). -/
def u64ofI64 (n : Int) : Nat := (Int.emod n (2 ^ 64)).toNat

/-- client.rs `CreateWorklogRequest`: the JSON body of a create-worklog call.
`started` is the worklog date (day number; the `%Y-%m-%d` formatting is not
modelled); `attributes` is the `HashMap<String, WorkAttribute>` contents. -/
structure CreateWorklogRequest where
  worker : String
  started : Int
  time_spent_seconds : Nat
  origin_task_id : String
  attributes : List (String × ClientWorkAttribute)
deriving DecidableEq

/-- The `payload` built by client.rs `create_worklog` (lines 119-135): the
attribute list is keyed by `attr.key` and collected into a `HashMap`. -/
def worklogPayload (worker : String) (start : Int) (task_id : String)
    (time_spent : Int) (attrs : List WorkAttribute) : CreateWorklogRequest :=
  { worker := worker
    started := start
    time_spent_seconds := u64ofI64 (time_spent * 60)
    origin_task_id := task_id
    attributes := hashMapFromIter (attrs.map fun a => (a.key, toClientAttribute a)) }

/-- client.rs `create_worklog` (lines 110-149): build the payload, then —
unless `dry_run` — POST it.  Returns the list of requests actually sent over
the network together with the call result; `netOk` is whether the tracker
answered 2xx (`error_for_status`). -/
def create_worklog (dry_run : Bool) (worker : String) (start : Int) (task_id : String)
    (time_spent : Int) (attrs : List WorkAttribute) (netOk : Bool) :
    List CreateWorklogRequest × Except Unit Unit :=
  let payload := worklogPayload worker start task_id time_spent attrs
  if dry_run then ([], Except.ok ())
  else if netOk then ([payload], Except.ok ()) else ([payload], Except.error ())

/-- client.rs `PostApprovalRequest` (flattened): the submit-for-approval body.
`date_from` is the approval period start (day number). -/
structure PostApprovalRequest where
  userKey : String
  date_from : Int
  comment : String
  reviewerKey : String
deriving DecidableEq

/-- Failures of the submission step.  `noReviewerConfigured` is the
`bail!("No reviewer specified for submission")` of src/main.rs `submit`
(the spec's `SubmissionError::NoReviewerConfigured`); `net` a non-2xx response. -/
inductive SubmissionError where
  | noReviewerConfigured
  | net
deriving DecidableEq

/-- client.rs `submit_timesheet` (lines 151-187): the approval period starts at
`monday - TimeDelta::days(2)` (the Saturday prior); the payload names the
worker and the reviewer; the POST is skipped when `dry_run`. -/
def submit_timesheet (dry_run : Bool) (worker reviewer : String) (monday : Int)
    (netOk : Bool) : List PostApprovalRequest × Except SubmissionError Unit :=
  let payload : PostApprovalRequest :=
    { userKey := worker, date_from := monday - 2, comment := "", reviewerKey := reviewer }
  if dry_run then ([], Except.ok ())
  else if netOk then ([payload], Except.ok ())
  else ([payload], Except.error SubmissionError.net)

/-- src/main.rs `submit` (lines 330-349): fail when no reviewer is configured,
otherwise submit the timesheet for approval. -/
def submit (dry_run : Bool) (reviewer : Option String) (worker : String)
    (first_day : Int) (netOk : Bool) : List PostApprovalRequest × Except SubmissionError Unit :=
  match reviewer with
  | some r => submit_timesheet dry_run worker r first_day netOk
  | none => ([], Except.error SubmissionError.noReviewerConfigured)

/-! ## Tasks and the worklog uploader (src/main.rs `upload_worklogs`) -/

/-- config `StaticTask` as used by src/main.rs: key, description and a fixed,
pre-resolved attribute list. -/
structure StaticTask where
  key : String
  description : String
  attributes : List WorkAttribute
deriving DecidableEq

/-- src/main.rs `Task`: statically configured, or fetched from the tracker
query (an `Issue` with its `key` and `fields`). -/
inductive Task where
  | staticTask (t : StaticTask)
  | fromQuery (key : String) (fields : List (String × Json))

/-- src/main.rs `Task::key`. -/
def Task.key : Task → String
  | Task.staticTask t => t.key
  | Task.fromQuery k _ => k

/-- Failures of the upload loop: a resolution failure of one entry, or a
failed network call. -/
inductive UploadError where
  | resolution (e : ResolutionError)
  | net
deriving DecidableEq

/-- src/main.rs `upload_worklogs` (lines 280-305): for each planned
`(day, task, duration)` entry in order, take the static task's attribute list
as-is or resolve the issue's attributes, then call `create_worklog`; the first
failure aborts the loop (`?`).  Returns the requests sent over the network and
the overall result; `netOk n` is the tracker's answer to the `n`-th call. -/
def upload_worklogs (dry_run : Bool) (dynamic_attributes static_attributes : List WorkAttribute)
    (worker : String) (netOk : Nat → Bool) :
    Nat → List (Int × Task × Int) → List CreateWorklogRequest × Except UploadError Unit
  | _, [] => ([], Except.ok ())
  | n, (day, log, time_spent) :: rest =>
    let attrsResult :=
      match log with
      | Task.staticTask t => Except.ok t.attributes
      | Task.fromQuery _ fields => resolve_attributes fields static_attributes dynamic_attributes
    match attrsResult with
    | Except.error e => ([], Except.error (UploadError.resolution e))
    | Except.ok attrs =>
      match create_worklog dry_run worker day log.key time_spent attrs (netOk n) with
      | (sent, Except.error _) => (sent, Except.error UploadError.net)
      | (sent, Except.ok _) =>
        let tail := upload_worklogs dry_run dynamic_attributes static_attributes worker netOk
          (n + 1) rest
        (sent ++ tail.1, tail.2)

/-! ## Theorems: the attribute resolver (C4, C5) -/

theorem resolveDynamic_ok (pointable : Json) :
    ∀ (ds out : List WorkAttribute), resolveDynamic pointable ds = Except.ok out →
      out.length = ds.length ∧
      ∀ i (hi : i < ds.length), ∃ s,
        extractString pointable (ds.get ⟨i, hi⟩).value = Except.ok s ∧
        out.get? i = some { ds.get ⟨i, hi⟩ with value := s } := by
  intro ds
  induction ds with
  | nil =>
    intro out h
    simp only [resolveDynamic] at h
    cases h
    exact ⟨rfl, fun i hi => absurd hi (Nat.not_lt_zero i)⟩
  | cons attr rest ih =>
    intro out h
    simp only [resolveDynamic] at h
    cases hex : extractString pointable attr.value with
    | error e => rw [hex] at h; cases h
    | ok s =>
      rw [hex] at h
      cases hrest : resolveDynamic pointable rest with
      | error e => rw [hrest] at h; cases h
      | ok tail =>
        rw [hrest] at h
        cases h
        obtain ⟨hlen, hidx⟩ := ih tail hrest
        refine ⟨by simp [hlen], ?_⟩
        intro i hi
        cases i with
        | zero => exact ⟨s, hex, rfl⟩
        | succ i =>
          obtain ⟨s', hs', hout⟩ := hidx i (Nat.lt_of_succ_lt_succ hi)
          exact ⟨s', by simpa using hs', by simpa using hout⟩

/-- Claim C4: for every task field set and every pair of template lists on
which resolution succeeds, the resolver returns the dynamic attributes first,
in template order, each a copy of its template with `key`, `name` and id
unchanged and `value` replaced by the string extracted at the template's path,
followed by all static templates verbatim, in template order. -/
theorem C4_resolver_order (fields : List (String × Json))
    (statics dynamics res : List WorkAttribute)
    (h : resolve_attributes fields statics dynamics = Except.ok res) :
    res.length = dynamics.length + statics.length ∧
    (∀ i (hi : i < dynamics.length), ∃ s,
      extractString (Json.obj fields) (dynamics.get ⟨i, hi⟩).value = Except.ok s ∧
      res.get? i = some { dynamics.get ⟨i, hi⟩ with value := s }) ∧
    (∀ j (hj : j < statics.length),
      res.get? (dynamics.length + j) = some (statics.get ⟨j, hj⟩)) := by
  simp only [resolve_attributes] at h
  cases hd : resolveDynamic (Json.obj fields) dynamics with
  | error e => rw [hd] at h; cases h
  | ok resolved =>
    rw [hd] at h
    cases h
    obtain ⟨hlen, hidx⟩ := resolveDynamic_ok (Json.obj fields) dynamics resolved hd
    refine ⟨by simp [hlen], ?_, ?_⟩
    · intro i hi
      obtain ⟨s, hs, hres⟩ := hidx i hi
      refine ⟨s, hs, ?_⟩
      rw [List.get?_append (by omega), hres]
    · intro j hj
      rw [List.get?_append_right (by omega)]
      have hidx2 : dynamics.length + j - resolved.length = j := by omega
      rw [hidx2, List.get?_eq_get hj]

/-- Claim C4, witness: end-to-end scenario A plus one static template.  The
dynamic template with path `/customfield_100` resolves to `"ABC"`; the static
template follows verbatim. -/
theorem C4_resolver_order_witness :
    resolve_attributes [("customfield_100", Json.str "ABC")]
        [⟨"sk", "sn", 2, "lit"⟩] [⟨"k", "n", 1, "/customfield_100"⟩] =
      Except.ok [⟨"k", "n", 1, "ABC"⟩, ⟨"sk", "sn", 2, "lit"⟩] ∧
    ([⟨"k", "n", 1, "ABC"⟩, ⟨"sk", "sn", 2, "lit"⟩] : List WorkAttribute).length = 1 + 1 :=
  ⟨rfl,
    (C4_resolver_order [("customfield_100", Json.str "ABC")]
      [⟨"sk", "sn", 2, "lit"⟩] [⟨"k", "n", 1, "/customfield_100"⟩]
      [⟨"k", "n", 1, "ABC"⟩, ⟨"sk", "sn", 2, "lit"⟩] rfl).1⟩

theorem resolveDynamic_first_error (pointable : Json) (e : ResolutionError) :
    ∀ (ds1 : List WorkAttribute) (a : WorkAttribute) (ds2 : List WorkAttribute),
      (∀ b ∈ ds1, ∃ s, extractString pointable b.value = Except.ok s) →
      extractString pointable a.value = Except.error e →
      resolveDynamic pointable (ds1 ++ a :: ds2) = Except.error e := by
  intro ds1
  induction ds1 with
  | nil =>
    intro a ds2 _ ha
    simp only [List.nil_append, resolveDynamic, ha]
  | cons b rest ih =>
    intro a ds2 hok ha
    obtain ⟨s, hs⟩ := hok b (List.mem_cons_self b rest)
    have htail := ih a ds2 (fun c hc => hok c (List.mem_cons_of_mem b hc)) ha
    simp only [List.cons_append, resolveDynamic, hs, List.append_eq, htail]

/-- Claim C5: the resolver returns the typed error `pathNotFound` when the
first failing dynamic template's path does not resolve to any value, returns
`notAString` when that path resolves to a non-string value, and every outcome
on any input is either success or one of the two typed errors (no panic: the
only `unwrap` in the source serializes a string-keyed map, which cannot fail). -/
theorem C5_resolver_errors (fields : List (String × Json)) (statics : List WorkAttribute)
    (ds1 : List WorkAttribute) (a : WorkAttribute) (ds2 : List WorkAttribute)
    (hok : ∀ b ∈ ds1, ∃ s, extractString (Json.obj fields) b.value = Except.ok s) :
    (pointer (Json.obj fields) a.value = none →
      resolve_attributes fields statics (ds1 ++ a :: ds2) =
        Except.error ResolutionError.pathNotFound) ∧
    (∀ v, pointer (Json.obj fields) a.value = some v → v.asStr = none →
      resolve_attributes fields statics (ds1 ++ a :: ds2) =
        Except.error ResolutionError.notAString) ∧
    (∀ dyn : List WorkAttribute,
      (∃ r, resolve_attributes fields statics dyn = Except.ok r) ∨
      resolve_attributes fields statics dyn = Except.error ResolutionError.pathNotFound ∨
      resolve_attributes fields statics dyn = Except.error ResolutionError.notAString) := by
  refine ⟨?_, ?_, ?_⟩
  · intro hp
    have ha : extractString (Json.obj fields) a.value =
        Except.error ResolutionError.pathNotFound := by
      simp only [extractString, hp]
    have := resolveDynamic_first_error (Json.obj fields) ResolutionError.pathNotFound
      ds1 a ds2 hok ha
    simp only [resolve_attributes, this]
  · intro v hp hv
    have ha : extractString (Json.obj fields) a.value =
        Except.error ResolutionError.notAString := by
      simp only [extractString, hp, hv]
    have := resolveDynamic_first_error (Json.obj fields) ResolutionError.notAString
      ds1 a ds2 hok ha
    simp only [resolve_attributes, this]
  · intro dyn
    simp only [resolve_attributes]
    cases hd : resolveDynamic (Json.obj fields) dyn with
    | error e => cases e with
      | pathNotFound => exact Or.inr (Or.inl rfl)
      | notAString => exact Or.inr (Or.inr rfl)
    | ok resolved => exact Or.inl ⟨resolved ++ statics, rfl⟩

/-- Claim C5, witness: a path absent from the fields yields `pathNotFound`;
a path hitting the number `3` yields `notAString`. -/
theorem C5_resolver_errors_witness :
    resolve_attributes [("x", Json.num 3)] [] [⟨"k", "n", 1, "/missing"⟩] =
      Except.error ResolutionError.pathNotFound ∧
    resolve_attributes [("x", Json.num 3)] [] [⟨"k", "n", 1, "/x"⟩] =
      Except.error ResolutionError.notAString :=
  ⟨(C5_resolver_errors [("x", Json.num 3)] [] [] ⟨"k", "n", 1, "/missing"⟩ []
      (by intro b hb; cases hb)).1 rfl,
    (C5_resolver_errors [("x", Json.num 3)] [] [] ⟨"k", "n", 1, "/x"⟩ []
      (by intro b hb; cases hb)).2.1 (Json.num 3) rfl rfl⟩

/-! ## Theorems: the daily allocation loop (C1, C2, C9) -/

theorem sumDurations_append (l : List (α × Int)) (x : α × Int) :
    sumDurations (l ++ [x]) = sumDurations l + x.2 := by
  simp [sumDurations]

theorem select_days_tasks_step_stop (tasks : List α) (target : Int) (dflt : Option Int)
    (random : Bool) (ch : AllocChoices) (fuel k : Nat) (today : List (α × Int))
    (h : ¬ sumDurations today < target) :
    select_days_tasks tasks target dflt random ch (fuel + 1) k today =
      some (Except.ok today) := by
  simp only [select_days_tasks, if_neg h]

theorem select_days_tasks_step_random (t0 : α) (ts0 : List α) (target d : Int)
    (ch : AllocChoices) (fuel k : Nat) (today : List (α × Int))
    (h : sumDurations today < target) :
    select_days_tasks (t0 :: ts0) target (some d) true ch (fuel + 1) k today =
      select_days_tasks (t0 :: ts0) target (some d) true ch fuel (k + 1)
        (today ++ [(chooseTask t0 ts0 (ch.pick k), d)]) := by
  simp only [select_days_tasks, if_pos h]
  rfl

theorem select_days_tasks_step_prompt (t0 : α) (ts0 : List α) (target : Int)
    (dflt : Option Int) (ch : AllocChoices) (fuel k : Nat) (today : List (α × Int))
    (h : sumDurations today < target) :
    select_days_tasks (t0 :: ts0) target dflt false ch (fuel + 1) k today =
      select_days_tasks (t0 :: ts0) target dflt false ch fuel (k + 1)
        (today ++ [(chooseTask t0 ts0 (ch.pick k), chosenDuration dflt ch k)]) := by
  simp only [select_days_tasks, if_pos h]
  rfl

theorem select_days_tasks_terminates (t0 : α) (ts0 : List α) (target : Int)
    (dflt : Option Int) (random : Bool) (ch : AllocChoices)
    (hrand : random = true → dflt.isSome)
    (hpos : ∀ k, 0 < chosenDuration dflt ch k) :
    ∀ (m k : Nat) (today : List (α × Int)),
      (target - sumDurations today).toNat ≤ m →
      (∀ n < today.length, sumDurations (today.take n) < target) →
      ∃ res, select_days_tasks (t0 :: ts0) target dflt random ch (m + 1) k today =
          some (Except.ok res) ∧
        target ≤ sumDurations res ∧
        ∀ n < res.length, sumDurations (res.take n) < target := by
  intro m
  induction m with
  | zero =>
    intro k today hm hpre
    have hstop : ¬ sumDurations today < target := by omega
    exact ⟨today, select_days_tasks_step_stop _ _ _ _ _ _ _ _ hstop, by omega, hpre⟩
  | succ m ih =>
    intro k today hm hpre
    by_cases hlt : sumDurations today < target
    · have hd := hpos k
      have hpre' : ∀ (x : α × Int), ∀ n < (today ++ [x]).length,
          sumDurations ((today ++ [x]).take n) < target := by
        intro x n hn
        rw [List.length_append, List.length_singleton] at hn
        rcases Nat.lt_succ_iff_lt_or_eq.mp hn with hn' | hn'
        · rw [List.take_append_of_le_length (Nat.le_of_lt hn')]
          exact hpre n hn'
        · subst hn'
          rw [List.take_left]
          exact hlt
      cases random with
      | true =>
        obtain ⟨d, hdd⟩ := Option.isSome_iff_exists.mp (hrand rfl)
        subst hdd
        have hd' : chosenDuration (some d) ch k = d := rfl
        rw [hd'] at hd
        set today' := today ++ [(chooseTask t0 ts0 (ch.pick k), d)] with hdef
        have hsum : sumDurations today' = sumDurations today + d := sumDurations_append _ _
        obtain ⟨res, heq, h1, h2⟩ := ih (k + 1) today' (by omega) (hpre' _)
        refine ⟨res, ?_, h1, h2⟩
        rw [select_days_tasks_step_random t0 ts0 target d ch (m + 1) k today hlt]
        exact heq
      | false =>
        set today' := today ++ [(chooseTask t0 ts0 (ch.pick k), chosenDuration dflt ch k)]
          with hdef
        have hsum : sumDurations today' = sumDurations today + chosenDuration dflt ch k :=
          sumDurations_append _ _
        obtain ⟨res, heq, h1, h2⟩ := ih (k + 1) today' (by omega) (hpre' _)
        refine ⟨res, ?_, h1, h2⟩
        rw [select_days_tasks_step_prompt t0 ts0 target dflt ch (m + 1) k today hlt]
        exact heq
    · exact ⟨today, select_days_tasks_step_stop _ _ _ _ _ _ _ _ hlt, by omega, hpre⟩

/-- Claim C1 (amended): for every non-empty candidate list, positive daily
target, and duration source yielding only *positive* durations (a positive
configured default duration; in prompt mode alternatively only positive
interactive minute entries), the allocation loop terminates and returns a
sequence of (task, duration) pairs whose summed duration is at least the
target, while every proper initial segment of the sequence sums to strictly
less than the target.  (The original claim, which allows *any* configured
default duration, fails: a configured default of 0 makes the loop run forever —
see the counterexample.) -/
theorem C1_allocator_reaches_target (tasks : List α) (target : Int)
    (dflt : Option Int) (random : Bool) (ch : AllocChoices)
    (htasks : tasks ≠ []) (htarget : 0 < target)
    (hrand : random = true → dflt.isSome)
    (hpos : ∀ k, 0 < chosenDuration dflt ch k) :
    ∃ fuel res,
      select_days_tasks tasks target dflt random ch fuel 0 [] = some (Except.ok res) ∧
      target ≤ sumDurations res ∧
      ∀ n < res.length, sumDurations (res.take n) < target := by
  obtain ⟨t0, ts0, rfl⟩ : ∃ t0 ts0, tasks = t0 :: ts0 := by
    cases tasks with
    | nil => exact absurd rfl htasks
    | cons a b => exact ⟨a, b, rfl⟩
  obtain ⟨res, heq, h1, h2⟩ := select_days_tasks_terminates t0 ts0 target dflt random ch
    hrand hpos target.toNat 0 []
    (by simp [sumDurations]) (by intro n hn; exact absurd hn (Nat.not_lt_zero n))
  exact ⟨target.toNat + 1, res, heq, h1, h2⟩

/-- Claim C1, witness: end-to-end scenario B — two candidate tasks, daily
target 480 minutes, default duration 240 minutes, random mode: the loop
terminates with a sequence summing to at least 480 whose proper initial
segments stay below 480. -/
theorem C1_allocator_reaches_target_witness :
    (([0, 1] : List Nat) ≠ [] ∧ (0 : Int) < 480) ∧
    ∃ fuel res,
      select_days_tasks [0, 1] 480 (some 240) true ⟨fun _ => 0, fun _ => 0⟩ fuel 0 [] =
          some (Except.ok res) ∧
      (480 : Int) ≤ sumDurations res ∧
      ∀ n < res.length, sumDurations (res.take n) < 480 :=
  ⟨⟨by decide, by decide⟩,
    C1_allocator_reaches_target [0, 1] 480 (some 240) true ⟨fun _ => 0, fun _ => 0⟩
      (by decide) (by decide) (fun _ => rfl) (fun _ => (by decide : (0 : Int) < 240))⟩

theorem select_zero_default_loops :
    ∀ (fuel k : Nat) (today : List (Unit × Int)), sumDurations today = 0 →
      select_days_tasks [()] 480 (some 0) true ⟨fun _ => 0, fun _ => 0⟩ fuel k today = none := by
  intro fuel
  induction fuel with
  | zero => intro k today _; rfl
  | succ fuel ih =>
    intro k today h
    have hlt : sumDurations today < 480 := by omega
    have hnext : sumDurations (today ++ [(chooseTask () [] 0, (0 : Int))]) = 0 := by
      rw [sumDurations_append, h]; simp
    simp only [select_days_tasks, if_pos hlt]
    exact ih (k + 1) _ hnext

/-- Claim C1, counterexample to the original statement: with the non-empty
candidate list `[()]`, the positive target 480 and the *configured default
duration 0* (an available duration source), the allocation loop never
terminates — no fuel bound suffices. -/
theorem C1_counterexample : allocatorDivergesOnZeroDefault :=
  fun fuel => select_zero_default_loops fuel 0 [] rfl

/-- Claim C2 (amended): invoked with an empty candidate list and a positive
target, the allocator never hangs, but it does not return a typed
`NoCandidates` error (none exists in the source): in random mode without a
configured default it returns the missing-default error (checked before the
task draw), and in every other case it terminates abnormally during the first
iteration — `tasks.choose(..).unwrap()` (or the selection over an empty item
list) panics. -/
theorem C2_empty_candidates {α : Type} (target : Int) (dflt : Option Int) (random : Bool)
    (ch : AllocChoices) (fuel : Nat) (htarget : 0 < target) :
    select_days_tasks ([] : List α) target dflt random ch (fuel + 1) 0 [] =
      some (Except.error (if random = true ∧ dflt = none
        then AllocFailure.missingDefaultDuration else AllocFailure.panicked)) := by
  have hlt : sumDurations ([] : List (α × Int)) < target := by
    simpa [sumDurations] using htarget
  cases random <;> cases dflt <;> simp [select_days_tasks, hlt]

/-- Claim C2, counterexample to the original statement: on the empty candidate
list with positive target 480 (random mode, default configured), the allocator
ends in the abnormal `panicked` outcome — not in a returned typed error. -/
theorem C2_counterexample :
    select_days_tasks ([] : List Unit) 480 (some 240) true ⟨fun _ => 0, fun _ => 0⟩ 1 0 [] =
      some (Except.error AllocFailure.panicked) := rfl

/-- Claim C2, witness (prompt mode, no default): the first iteration ends in
the abnormal `panicked` outcome. -/
theorem C2_empty_candidates_witness :
    (0 : Int) < 480 ∧
    select_days_tasks ([] : List Unit) 480 none false ⟨fun _ => 0, fun _ => 0⟩ 1 0 [] =
      some (Except.error AllocFailure.panicked) :=
  ⟨by decide,
    by simpa using C2_empty_candidates 480 none false ⟨fun _ => 0, fun _ => 0⟩ 0 (by decide)⟩

/-- Claim C9: in random mode with no configured default duration the allocator
fails with the missing-default error (for any candidate list — the check
precedes the draw); with a configured default `d`, every returned entry's
duration is exactly `d`, and the result never consults the interactive
duration source (it is independent of the `input` stream). -/
theorem C9_random_mode (tasks : List α) (target : Int) (ch : AllocChoices) :
    (∀ fuel, 0 < target →
      select_days_tasks tasks target none true ch (fuel + 1) 0 [] =
        some (Except.error AllocFailure.missingDefaultDuration)) ∧
    (∀ (d : Int) (fuel k : Nat) (today res : List (α × Int)),
      (∀ p ∈ today, p.2 = d) →
      select_days_tasks tasks target (some d) true ch fuel k today = some (Except.ok res) →
      ∀ p ∈ res, p.2 = d) ∧
    (∀ (d : Int) (pick input1 input2 : Nat → Nat) (fuel k : Nat) (today : List (α × Int)),
      select_days_tasks tasks target (some d) true ⟨pick, input1⟩ fuel k today =
        select_days_tasks tasks target (some d) true ⟨pick, input2⟩ fuel k today) := by
  refine ⟨?_, ?_, ?_⟩
  · intro fuel htarget
    have hlt : sumDurations ([] : List (α × Int)) < target := by
      simpa [sumDurations] using htarget
    simp [select_days_tasks, hlt]
  · intro d fuel
    induction fuel with
    | zero =>
      intro k today res _ heq
      simp [select_days_tasks] at heq
    | succ fuel ih =>
      intro k today res htoday heq
      simp only [select_days_tasks] at heq
      by_cases hlt : sumDurations today < target
      · rw [if_pos hlt] at heq
        cases tasks with
        | nil => simp at heq
        | cons t ts =>
          refine ih (k + 1) (today ++ [(chooseTask t ts (ch.pick k), d)]) res ?_ ?_
          · intro p hp
            rcases List.mem_append.mp hp with hp' | hp'
            · exact htoday p hp'
            · rw [List.mem_singleton.mp hp']
          · simpa using heq
      · rw [if_neg hlt] at heq
        cases heq
        exact htoday
  · intro d pick input1 input2 fuel
    induction fuel with
    | zero => intro k today; rfl
    | succ fuel ih =>
      intro k today
      simp only [select_days_tasks]
      by_cases hlt : sumDurations today < target
      · rw [if_pos hlt, if_pos hlt]
        cases tasks with
        | nil => rfl
        | cons t ts => exact ih (k + 1) _
      · rw [if_neg hlt, if_neg hlt]

/-- Claim C9, witness: random mode, no default configured, non-empty candidate
list, positive target — the allocator returns the missing-default error. -/
theorem C9_random_mode_witness :
    select_days_tasks [()] 480 none true ⟨fun _ => 0, fun _ => 0⟩ 1 0 [] =
      some (Except.error AllocFailure.missingDefaultDuration) := by
  simpa using (C9_random_mode [()] 480 ⟨fun _ => 0, fun _ => 0⟩).1 0 (by decide)

/-! ## Theorems: target week resolution (C3) -/

/-- Claim C3 fails on the code (calendar-year/ISO-year mix-up): on
2025-12-29 — a Monday whose ISO week is week 1 of ISO year 2026 — the code
pairs `now.year() = 2025` with week number 1 and produces first_day
2024-12-30, while the Monday of the ISO week implied by "now" is 2025-12-29
itself.  On 2027-01-01 (ISO week 53 of 2026, while calendar year 2027 has
only 52 ISO weeks) `from_isoywd_opt` returns `None` and the code's `.unwrap()`
panics. -/
theorem C3_iso_year_boundary_bug :
    codeFirstDay (daysFromCivil 2025 12 29) false = some (daysFromCivil 2024 12 30) ∧
    specFirstDay (daysFromCivil 2025 12 29) false = daysFromCivil 2025 12 29 ∧
    daysFromCivil 2024 12 30 ≠ daysFromCivil 2025 12 29 ∧
    codeFirstDay (daysFromCivil 2027 1 1) false = none ∧
    codeFirstDay (daysFromCivil 2025 12 22) true = some (daysFromCivil 2024 12 30) ∧
    specFirstDay (daysFromCivil 2025 12 22) true = daysFromCivil 2025 12 29 := by
  refine ⟨by decide, by decide, by decide, by decide, by decide, by decide⟩

/-! ## Theorems: the week-planning loop (C6) -/

theorem planDays_ok (tasks : List α) (target : Int) (dflt : Option Int) (random : Bool)
    (ch : Nat → AllocChoices) (fuel : Nat) (firstDay : Int) :
    ∀ (days : List Nat) (res : List (Int × α × Int)),
      days.Nodup →
      planDays tasks target dflt random ch fuel firstDay days = some (Except.ok res) →
      ∃ l : Nat → List (α × Int),
        (∀ i ∈ days,
          select_days_tasks tasks target dflt random (ch i) fuel 0 [] =
            some (Except.ok (l i))) ∧
        res = days.flatMap fun i => (l i).map fun p => (firstDay + (i : Int), p.1, p.2) := by
  intro days
  induction days with
  | nil =>
    intro res _ h
    simp only [planDays] at h
    cases h
    exact ⟨fun _ => [], by simp, by simp⟩
  | cons i rest ih =>
    intro res hnd h
    simp only [planDays] at h
    cases halloc : select_days_tasks tasks target dflt random (ch i) fuel 0 [] with
    | none => rw [halloc] at h; cases h
    | some r =>
      rw [halloc] at h
      cases r with
      | error e => cases h
      | ok today =>
        cases hrest : planDays tasks target dflt random ch fuel firstDay rest with
        | none => rw [hrest] at h; cases h
        | some r2 =>
          rw [hrest] at h
          cases r2 with
          | error e => cases h
          | ok work =>
            cases h
            obtain ⟨l, hl, hwork⟩ := ih work (List.Nodup.of_cons hnd) hrest
            have hni : i ∉ rest := (List.nodup_cons.mp hnd).1
            refine ⟨Function.update l i today, ?_, ?_⟩
            · intro j hj
              rcases List.mem_cons.mp hj with hj' | hj'
              · subst hj'
                rw [Function.update_same]
                exact halloc
              · have hji : j ≠ i := by
                  intro hq
                  exact hni (hq ▸ hj')
                rw [Function.update_noteq hji]
                exact hl j hj'
            · simp only [List.flatMap_cons, Function.update_same]
              congr 1
              rw [hwork]
              refine List.flatMap_congr ?_
              intro j hj
              have hji : j ≠ i := by
                intro hq
                exact hni (hq ▸ hj)
              rw [Function.update_noteq hji]

theorem planDays_error (tasks : List α) (target : Int) (dflt : Option Int) (random : Bool)
    (ch : Nat → AllocChoices) (fuel : Nat) (firstDay : Int) (e : AllocFailure) :
    ∀ (days1 : List Nat) (i : Nat) (days2 : List Nat),
      (∀ j ∈ days1, ∃ lj, select_days_tasks tasks target dflt random (ch j) fuel 0 [] =
        some (Except.ok lj)) →
      select_days_tasks tasks target dflt random (ch i) fuel 0 [] = some (Except.error e) →
      planDays tasks target dflt random ch fuel firstDay (days1 ++ i :: days2) =
        some (Except.error e) := by
  intro days1
  induction days1 with
  | nil =>
    intro i days2 _ hi
    simp only [List.nil_append, planDays, hi]
  | cons j rest ih =>
    intro i days2 hok hi
    obtain ⟨lj, hlj⟩ := hok j (List.mem_cons_self j rest)
    have htail := ih i days2 (fun j' hj' => hok j' (List.mem_cons_of_mem j hj')) hi
    simp only [List.cons_append, planDays, hlj, List.append_eq, htail]

/-- Claim C6: the week planner invokes the daily allocator exactly once per
day, each time with a fresh empty accumulator, for exactly the 5 consecutive
days `first_day, .., first_day + 4`: a successful plan is exactly the
concatenation, in day order, of the 5 per-day allocations annotated with their
day; and if the allocation of some day fails (all earlier days having
succeeded), the whole plan fails with that error — no partial week is
produced. -/
theorem C6_week_planner (tasks : List α) (target : Int) (dflt : Option Int) (random : Bool)
    (ch : Nat → AllocChoices) (fuel : Nat) (firstDay : Int) :
    (∀ res, plan_week tasks target dflt random ch fuel firstDay = some (Except.ok res) →
      ∃ l : Nat → List (α × Int),
        (∀ i < 5,
          select_days_tasks tasks target dflt random (ch i) fuel 0 [] =
            some (Except.ok (l i))) ∧
        res = (List.range 5).flatMap fun i =>
          (l i).map fun p => (firstDay + (i : Int), p.1, p.2)) ∧
    (∀ i < 5, ∀ e : AllocFailure,
      (∀ j < i, ∃ lj, select_days_tasks tasks target dflt random (ch j) fuel 0 [] =
        some (Except.ok lj)) →
      select_days_tasks tasks target dflt random (ch i) fuel 0 [] = some (Except.error e) →
      plan_week tasks target dflt random ch fuel firstDay = some (Except.error e)) := by
  constructor
  · intro res h
    obtain ⟨l, hl, hres⟩ := planDays_ok tasks target dflt random ch fuel firstDay
      (List.range 5) res (List.nodup_range 5) h
    exact ⟨l, fun i hi => hl i (List.mem_range.mpr hi), hres⟩
  · intro i hi e hok hie
    have hsplit : List.range 5 = List.range i ++ i :: List.range' (i + 1) (4 - i) := by
      interval_cases i <;> decide
    rw [plan_week, hsplit]
    exact planDays_error tasks target dflt random ch fuel firstDay e
      (List.range i) i (List.range' (i + 1) (4 - i))
      (fun j hj => hok j (List.mem_range.mp hj)) hie

/-- Claim C6, witness: with an allocation that fails on the very first day
(random mode, no default configured), the whole plan fails with that error. -/
theorem C6_week_planner_witness :
    plan_week [()] 480 none true (fun _ => ⟨fun _ => 0, fun _ => 0⟩) 1 0 =
      some (Except.error AllocFailure.missingDefaultDuration) :=
  (C6_week_planner [()] 480 none true (fun _ => ⟨fun _ => 0, fun _ => 0⟩) 1 0).2
    0 (by decide) AllocFailure.missingDefaultDuration
    (fun j hj => absurd hj (Nat.not_lt_zero j)) rfl

/-! ## Theorems: dry-run and submission (C7, C8) -/

/-- Claim C7: with dry-run enabled the uploader performs all attribute
resolution (so its outcome is exactly the outcome of a real run in which every
network call succeeds — resolution errors are still surfaced, and success is
returned as if each call succeeded), it sends no create-worklog request over
the network, its behaviour is independent of the tracker's answers, and the
dry-run timesheet submission likewise sends nothing and reports success. -/
theorem C7_dry_run_uploads (dyn stat : List WorkAttribute) (worker : String)
    (netOk netOk2 : Nat → Bool) :
    (∀ (n : Nat) (logs : List (Int × Task × Int)),
      upload_worklogs true dyn stat worker netOk n logs =
        upload_worklogs true dyn stat worker netOk2 n logs) ∧
    (∀ (n : Nat) (logs : List (Int × Task × Int)),
      (upload_worklogs true dyn stat worker netOk n logs).1 = []) ∧
    (∀ (n : Nat) (logs : List (Int × Task × Int)),
      (upload_worklogs true dyn stat worker netOk n logs).2 =
        (upload_worklogs false dyn stat worker (fun _ => true) n logs).2) ∧
    (∀ (w r : String) (monday : Int) (ok : Bool),
      submit_timesheet true w r monday ok = ([], Except.ok ())) := by
  refine ⟨?_, ?_, ?_, fun w r monday ok => rfl⟩
  · intro n logs
    induction logs generalizing n with
    | nil => rfl
    | cons entry rest ih =>
      obtain ⟨day, log, dur⟩ := entry
      cases log with
      | staticTask t =>
        simp [upload_worklogs, create_worklog, ih]
      | fromQuery key fields =>
        cases hres : resolve_attributes fields stat dyn with
        | error e => simp [upload_worklogs, create_worklog, hres]
        | ok attrs => simp [upload_worklogs, create_worklog, hres, ih]
  · intro n logs
    induction logs generalizing n with
    | nil => rfl
    | cons entry rest ih =>
      obtain ⟨day, log, dur⟩ := entry
      cases log with
      | staticTask t =>
        simp [upload_worklogs, create_worklog, ih]
      | fromQuery key fields =>
        cases hres : resolve_attributes fields stat dyn with
        | error e => simp [upload_worklogs, create_worklog, hres]
        | ok attrs => simp [upload_worklogs, create_worklog, hres, ih]
  · intro n logs
    induction logs generalizing n with
    | nil => rfl
    | cons entry rest ih =>
      obtain ⟨day, log, dur⟩ := entry
      cases log with
      | staticTask t =>
        simp [upload_worklogs, create_worklog, ih]
      | fromQuery key fields =>
        cases hres : resolve_attributes fields stat dyn with
        | error e => simp [upload_worklogs, create_worklog, hres]
        | ok attrs => simp [upload_worklogs, create_worklog, hres, ih]

/-- Claim C8: with no reviewer configured, submission fails with the
no-reviewer error and sends nothing; with a reviewer, exactly one
submit-for-approval request is issued, naming the worker and the reviewer,
with approval period start `week_start - 2` days (the Saturday preceding the
target Monday) — whatever the tracker answers. -/
theorem C8_submission (worker : String) (first_day : Int) :
    (∀ (dry_run netOk : Bool), submit dry_run none worker first_day netOk =
      ([], Except.error SubmissionError.noReviewerConfigured)) ∧
    (∀ r : String, submit false (some r) worker first_day true =
      ([{ userKey := worker, date_from := first_day - 2, comment := "", reviewerKey := r }],
        Except.ok ())) ∧
    (∀ (r : String) (netOk : Bool), (submit false (some r) worker first_day netOk).1 =
      [{ userKey := worker, date_from := first_day - 2, comment := "", reviewerKey := r }]) := by
  refine ⟨fun _ _ => rfl, fun r => rfl, fun r netOk => ?_⟩
  cases netOk <;> rfl

/-! ## Theorems: the create-worklog attribute map (C10) -/

theorem hashMapInsert_keys (m : List (String × ClientWorkAttribute)) (k : String)
    (v : ClientWorkAttribute) (hnd : (m.map Prod.fst).Nodup) :
    ((hashMapInsert m k v).map Prod.fst).Nodup := by
  unfold hashMapInsert
  cases hpresent : m.any fun p => p.1 == k with
  | true =>
    simp only [hpresent, if_true]
    have hkeys : ((m.map fun p => if p.1 == k then (k, v) else p).map Prod.fst) =
        m.map Prod.fst := by
      rw [List.map_map]
      refine List.map_congr_left ?_
      intro p _
      by_cases hp : (p.1 == k) = true
      · simp only [Function.comp_apply, if_pos hp]
        exact (eq_of_beq hp).symm
      · simp only [Function.comp_apply, if_neg hp]
    rw [hkeys]
    exact hnd
  | false =>
    simp only [hpresent, Bool.false_eq_true, if_false]
    rw [List.map_append]
    refine List.Nodup.append hnd (List.nodup_singleton k) ?_
    intro a ha hb
    simp only [List.map_cons, List.map_nil, List.mem_singleton] at hb
    subst hb
    obtain ⟨p, hp, hpa⟩ := List.mem_map.mp ha
    have := List.any_eq_false.mp hpresent p hp
    exact this (by rw [hpa]; exact beq_self_eq_true a)

theorem find?_replace_ne (k : String) (v : ClientWorkAttribute) (q : String)
    (hq : ¬ (k == q) = true) :
    ∀ m : List (String × ClientWorkAttribute),
      (m.map fun p => if p.1 == k then (k, v) else p).find? (fun p => p.1 == q) =
        m.find? fun p => p.1 == q := by
  intro m
  induction m with
  | nil => rfl
  | cons p m' ih =>
    have hq' : (k == q) = false := by simpa using hq
    by_cases hp : (p.1 == k) = true
    · have hpq : (p.1 == q) = false := by
        rw [eq_of_beq hp]
        exact hq'
      simp only [List.map_cons, if_pos hp, List.find?, hq', hpq]
      exact ih
    · by_cases hpq : (p.1 == q) = true
      · simp only [List.map_cons, if_neg hp, List.find?, hpq]
      · have hpq' : (p.1 == q) = false := by simpa using hpq
        simp only [List.map_cons, if_neg hp, List.find?, hpq']
        exact ih

theorem find?_replace_eq (k : String) (v : ClientWorkAttribute) :
    ∀ m : List (String × ClientWorkAttribute),
      m.any (fun p => p.1 == k) = true →
      (m.map fun p => if p.1 == k then (k, v) else p).find? (fun p => p.1 == k) =
        some (k, v) := by
  intro m
  induction m with
  | nil => intro h; cases h
  | cons p m' ih =>
    intro h
    by_cases hp : (p.1 == k) = true
    · simp only [List.map_cons, if_pos hp, List.find?, beq_self_eq_true]
    · have hp' : (p.1 == k) = false := by simpa using hp
      simp only [List.map_cons, hp', Bool.false_eq_true, if_false, List.find?]
      refine ih ?_
      rcases List.any_eq_true.mp h with ⟨r, hr, hrk⟩
      rcases List.mem_cons.mp hr with hr' | hr'
      · exact absurd (hr' ▸ hrk) hp
      · exact List.any_eq_true.mpr ⟨r, hr', hrk⟩

theorem find?_append_some (p : β → Bool) (a : β) :
    ∀ l1 l2 : List β, l1.find? p = some a → (l1 ++ l2).find? p = some a := by
  intro l1
  induction l1 with
  | nil => intro l2 h; cases h
  | cons x l1' ih =>
    intro l2 h
    simp only [List.find?] at h
    simp only [List.cons_append, List.find?]
    cases hpx : p x with
    | true => rw [hpx] at h; exact h
    | false =>
      rw [hpx] at h
      exact ih l2 h

theorem find?_append_none (p : β → Bool) :
    ∀ l1 l2 : List β, l1.find? p = none → (l1 ++ l2).find? p = l2.find? p := by
  intro l1
  induction l1 with
  | nil => intro l2 _; rfl
  | cons x l1' ih =>
    intro l2 h
    simp only [List.find?] at h
    simp only [List.cons_append, List.find?]
    cases hpx : p x with
    | true => rw [hpx] at h; cases h
    | false =>
      rw [hpx] at h
      exact ih l2 h

theorem find?_some_beq (q : String) :
    ∀ (m : List (String × ClientWorkAttribute)) (r : String × ClientWorkAttribute),
      m.find? (fun p => p.1 == q) = some r → (r.1 == q) = true ∧ r ∈ m := by
  intro m
  induction m with
  | nil => intro r h; cases h
  | cons x m' ih =>
    intro r h
    simp only [List.find?] at h
    cases hpx : x.1 == q with
    | true =>
      rw [hpx] at h
      cases h
      exact ⟨hpx, List.mem_cons_self x m'⟩
    | false =>
      rw [hpx] at h
      obtain ⟨h1, h2⟩ := ih r h
      exact ⟨h1, List.mem_cons_of_mem x h2⟩

theorem hashMapInsert_get (m : List (String × ClientWorkAttribute)) (k : String)
    (v : ClientWorkAttribute) (q : String) :
    hashMapGet (hashMapInsert m k v) q = if k = q then some v else hashMapGet m q := by
  unfold hashMapInsert hashMapGet
  cases hpresent : m.any fun p => p.1 == k with
  | true =>
    simp only [hpresent, if_true]
    by_cases hq : k = q
    · subst hq
      rw [if_pos rfl, find?_replace_eq k v m hpresent]
      rfl
    · rw [if_neg hq, find?_replace_ne k v q (fun hb => hq (eq_of_beq hb)) m]
  | false =>
    simp only [hpresent, Bool.false_eq_true, if_false]
    cases hfind : m.find? fun p => p.1 == q with
    | some r =>
      obtain ⟨hrq', hrm⟩ := find?_some_beq q m r hfind
      have hrq : r.1 = q := eq_of_beq hrq'
      have hkq : ¬ k = q := by
        intro hkq
        subst hkq
        exact (List.any_eq_false.mp hpresent r hrm) (by rw [hrq]; exact beq_self_eq_true k)
      rw [find?_append_some _ r m [(k, v)] hfind, if_neg hkq]
    | none =>
      rw [find?_append_none _ m [(k, v)] hfind]
      by_cases hq : k = q
      · subst hq
        rw [if_pos rfl]
        simp only [List.find?, beq_self_eq_true]
        rfl
      · have hq' : (k == q) = false := by
          simpa using fun hb => hq (eq_of_beq hb)
        rw [if_neg hq]
        simp only [List.find?, hq', Bool.false_eq_true]

theorem getLast?_cons_of_some (p : α) (xs : List α) (r : α) (h : xs.getLast? = some r) :
    (p :: xs).getLast? = some r := by
  cases xs with
  | nil => cases h
  | cons y ys => rw [List.getLast?_cons_cons]; exact h

theorem hashMapFromIter_get_aux (q : String) :
    ∀ (l m : List (String × ClientWorkAttribute)),
      hashMapGet (l.foldl (fun m p => hashMapInsert m p.1 p.2) m) q =
        match (l.filter fun p => p.1 == q).getLast? with
        | some r => some r.2
        | none => hashMapGet m q := by
  intro l
  induction l with
  | nil => intro m; rfl
  | cons p l' ih =>
    intro m
    rw [List.foldl_cons, ih (hashMapInsert m p.1 p.2)]
    by_cases hpq : (p.1 == q) = true
    · have hfc : List.filter (fun r => r.1 == q) (p :: l') =
          p :: List.filter (fun r => r.1 == q) l' := by
        simp only [List.filter, hpq]
      rw [hfc]
      cases hlast : (l'.filter fun r => r.1 == q).getLast? with
      | some r => rw [getLast?_cons_of_some p _ r hlast]
      | none =>
        have hnil : (l'.filter fun r => r.1 == q) = [] :=
          List.getLast?_eq_none_iff.mp hlast
        rw [hnil]
        simp only [List.getLast?_singleton]
        rw [hashMapInsert_get, if_pos (eq_of_beq hpq)]
    · have hpq' : (p.1 == q) = false := by simpa using hpq
      have hfc : List.filter (fun r => r.1 == q) (p :: l') =
          List.filter (fun r => r.1 == q) l' := by
        simp only [List.filter, hpq', Bool.false_eq_true]
      rw [hfc]
      cases hlast : (l'.filter fun r => r.1 == q).getLast? with
      | some r => rfl
      | none =>
        have hne : ¬ p.1 = q := by
          intro hq
          rw [hq] at hpq
          exact hpq (beq_self_eq_true q)
        rw [hashMapInsert_get, if_neg hne]

theorem hashMapFromIter_get (l : List (String × ClientWorkAttribute)) (q : String) :
    hashMapGet (hashMapFromIter l) q =
      ((l.filter fun p => p.1 == q).getLast?).map Prod.snd := by
  rw [hashMapFromIter, hashMapFromIter_get_aux q l []]
  cases (l.filter fun p => p.1 == q).getLast? with
  | some r => rfl
  | none => rfl

theorem hashMapFromIter_keys_nodup (l : List (String × ClientWorkAttribute)) :
    ((hashMapFromIter l).map Prod.fst).Nodup := by
  suffices h : ∀ (l m : List (String × ClientWorkAttribute)),
      (m.map Prod.fst).Nodup →
      ((l.foldl (fun m p => hashMapInsert m p.1 p.2) m).map Prod.fst).Nodup by
    exact h l [] List.nodup_nil
  intro l
  induction l with
  | nil => intro m hm; exact hm
  | cons p l' ih =>
    intro m hm
    rw [List.foldl_cons]
    exact ih (hashMapInsert m p.1 p.2) (hashMapInsert_keys m p.1 p.2 hm)

/-- Claim C10: the create-worklog request carries the resolved attributes as a
mapping keyed by attribute key — at most one attribute per key (the key list
of the request's attribute map is duplicate-free), and a lookup returns the
*last* attribute of the input list with that key.  Hence when a dynamic and a
static attribute collide on a key, only one of them (the later, static one) is
in the request, and the dynamic-before-static list order is not transmitted. -/
theorem C10_worklog_attributes_map (worker : String) (start : Int) (task_id : String)
    (time_spent : Int) (attrs : List WorkAttribute) :
    (((worklogPayload worker start task_id time_spent attrs).attributes.map Prod.fst).Nodup) ∧
    (∀ q, hashMapGet (worklogPayload worker start task_id time_spent attrs).attributes q =
      ((attrs.filter fun a => a.key == q).getLast?).map toClientAttribute) := by
  constructor
  · exact hashMapFromIter_keys_nodup _
  · intro q
    show hashMapGet (hashMapFromIter (attrs.map fun a => (a.key, toClientAttribute a))) q = _
    rw [hashMapFromIter_get, List.filter_map]
    have hcomp : ((fun p : String × ClientWorkAttribute => p.1 == q) ∘
        fun a : WorkAttribute => (a.key, toClientAttribute a)) =
        fun a : WorkAttribute => a.key == q := rfl
    rw [hcomp, List.getLast?_map, Option.map_map]
    rfl

end Jt





